import Mathlib

/-!
Verification of the CodeMate sandboxed terminal (src/main.py, src/executer.py).

The embedding models the Python program shallowly:

* POSIX paths are lists of segments below the filesystem root `/`;
  `pathlib.PurePosixPath` parsing, joining and `name` are modelled exactly
  (empty and "." segments dropped on parse, ".." kept, joining with the
  empty string is the identity).
* `Path.resolve()` is modelled as lexical normalisation (".." removes the
  previous segment and is a no-op at `/`): the sandbox is assumed free of
  symbolic links, and `resolve(strict=False)` never touches the disk
  otherwise.
* The filesystem is an association list from absolute segment paths to
  nodes (directory, or file with raw text content); earlier bindings win.
* Printing is modelled by returning the printed text; `print(x)` appends a
  newline, `print(x, end='')` does not.
* A command handler returns `ExecR`: normal return with output, a raised
  exception (carrying output printed before the raise), or `SystemExit`.
-/

namespace CodeMate

/-- Segment list of an absolute POSIX path below `/` (so `[]` is `/` itself,
and `["r", "a"]` is `/r/a`). -/
abbrev Segs := List String

/-- Parsed POSIX path, as `pathlib.PurePosixPath` parses a string: a leading
slash makes it absolute; empty and "." components are dropped; ".."
components are kept. -/
structure PPath where
  absolute : Bool
  segs : List String
deriving DecidableEq, Repr

/-- Splitting a character list on the slash character, keeping empty chunks
(the behaviour of `"x".split("/")` / `String.splitOn "/"`), written by
structural recursion so that the kernel can evaluate it on literals. -/
def splitSlashAux : List Char → List Char → List String
  | [], acc => [String.mk acc.reverse]
  | c :: rest, acc =>
    if c = '/' then String.mk acc.reverse :: splitSlashAux rest []
    else splitSlashAux rest (c :: acc)

/-- Split a string on "/". -/
def splitSlash (s : String) : List String := splitSlashAux s.data []

/-- String to `PPath`, following `PurePosixPath` component parsing: a leading
slash marks an absolute path, and empty and "." components are dropped. -/
def parsePath (s : String) : PPath :=
  { absolute := match s.data with | '/' :: _ => true | _ => false
    segs := (splitSlash s).filter (fun t => t ≠ "" ∧ t ≠ ".") }

/-- The `name` property of `pathlib`: the final component, or "" when the
component list is empty (as for `/` and `.`). -/
def PPath.name (p : PPath) : String := p.segs.getLastD ""

/-- Lexical `Path.resolve()` over segments, starting from the already
canonical absolute path `acc`: a ".." segment removes the last segment of
the accumulator (and is a no-op at `/`, where the accumulator is empty);
every other segment is appended. -/
def normSegs (acc : Segs) : List String → Segs
  | [] => acc
  | s :: rest => if s = ".." then normSegs acc.dropLast rest else normSegs (acc ++ [s]) rest

/-- Canonical absolute form of a parsed path against the current directory
`cwd`: `(cwd / p).resolve()` for a relative `p`, `p.resolve()` for an
absolute one (line 105 of src/main.py). -/
def rawResolve (cwd : Segs) (p : PPath) : Segs :=
  if p.absolute then normSegs [] p.segs else normSegs cwd p.segs

/-- Model of `self.root / nm` followed by `.resolve()` where `nm` is a
`pathlib` `name` value: joining with "" is the identity (verified
`PurePosixPath` behaviour). -/
def rootJoinName (root : Segs) (nm : String) : Segs :=
  normSegs root (if nm = "" then [] else [nm])

/-- Model of `Terminal._resolve_path` (src/main.py lines 101-110): the empty
string returns `cwd`; otherwise the input is parsed and canonicalised; if the
canonical form is not inside `root` (the `relative_to` check), the result is
`(root / p.name).resolve()` where `p` is the canonical form - note that the
Python code rebinds `p` on line 105, so `p.name` is the basename of the
resolved path, not of the raw input. -/
def resolvePath (root cwd : Segs) (s : String) : Segs :=
  if s = "" then cwd
  else
    let p := parsePath s
    let r := rawResolve cwd p
    if root.isPrefixOf r then r
    else rootJoinName root ((PPath.mk true r).name)

/-- Joining a list of strings with a separator, as `sep.join(xs)` does. -/
def joinSep (sep : String) : List String → String
  | [] => ""
  | [x] => x
  | x :: y :: rest => x ++ sep ++ joinSep sep (y :: rest)

/-- Concatenation of a list of strings. -/
def concatAll : List String → String
  | [] => ""
  | x :: rest => x ++ concatAll rest

/-- Rendering of an absolute path as `str(PosixPath)` renders it. -/
def segsStr (p : Segs) : String := "/" ++ joinSep "/" p

/-- Output of `print(s)`: the text plus a newline. -/
def printLn (s : String) : String := s ++ "\n"

/-- Node of the modelled filesystem. -/
inductive Node
  | dir
  | file (content : String)
deriving DecidableEq, Repr

/-- The filesystem: an association list from absolute segment paths to
nodes; the first binding for a key wins.  The command implementations keep
keys unique. -/
abbrev FS := List (Segs × Node)

def fsLookup : FS → Segs → Option Node
  | [], _ => none
  | (q, n) :: rest, p => if q = p then some n else fsLookup rest p

/-- Model of `Path.exists()`. -/
def fsExists (fs : FS) (p : Segs) : Bool := (fsLookup fs p).isSome

/-- Model of `Path.is_dir()`. -/
def fsIsDir (fs : FS) (p : Segs) : Bool := fsLookup fs p = some Node.dir

/-- Model of `Path.is_file()`. -/
def fsIsFile (fs : FS) (p : Segs) : Bool :=
  match fsLookup fs p with
  | some (Node.file _) => true
  | _ => false

/-- Write a binding, dropping any previous binding for the same key. -/
def fsSet (fs : FS) (p : Segs) (n : Node) : FS :=
  (p, n) :: fs.filter (fun e => e.1 ≠ p)

/-- Model of `Path.unlink()`: remove the binding at exactly `p`. -/
def fsRemoveKey (fs : FS) (p : Segs) : FS := fs.filter (fun e => e.1 ≠ p)

/-- Model of `shutil.rmtree(p)`: remove `p` and everything below it. -/
def fsRemoveTree (fs : FS) (p : Segs) : FS := fs.filter (fun e => ¬ p.isPrefixOf e.1)

/-- Digit list to number. -/
def digitsVal : List Char → Nat → Nat
  | [], acc => acc
  | c :: rest, acc => digitsVal rest (acc * 10 + (c.toNat - 48))

/-- Model of Python `int(str)` restricted to an optional sign followed by
decimal digits.  Python additionally accepts surrounding whitespace,
underscore separators and non-ASCII digits; no claim depends on those
forms. -/
def pyInt? (s : String) : Option Int :=
  match s.data with
  | [] => none
  | '-' :: rest =>
    if rest ≠ [] ∧ rest.all Char.isDigit then some (-(digitsVal rest 0 : Int)) else none
  | '+' :: rest =>
    if rest ≠ [] ∧ rest.all Char.isDigit then some ((digitsVal rest 0 : Int)) else none
  | cs => if cs ≠ [] ∧ cs.all Char.isDigit then some ((digitsVal cs 0 : Int)) else none

/-- Split text into lines the way iterating a Python text file does: each
line keeps its terminating newline; a final unterminated chunk is kept as a
last line.  (The file is opened in text mode; contents are modelled with
newline terminators only.) -/
def splitLinesAux : List Char → List Char → List String
  | [], [] => []
  | [], acc => [String.mk acc.reverse]
  | c :: rest, acc =>
    if c = '\n' then String.mk (acc.reverse ++ ['\n']) :: splitLinesAux rest []
    else splitLinesAux rest (c :: acc)

def splitLinesKeepEnds (s : String) : List String := splitLinesAux s.data []

/-- State of the interpreter: the sandbox root, the current directory, the
filesystem, the stream of pending interactive confirmation answers (an
exhausted stream behaves like EOF, which `_confirm` maps to False), and an
opaque view of host-system command output (ps, sysmon, df, history). -/
structure TermState where
  root : Segs
  cwd : Segs
  fs : FS
  confirms : List Bool
  envOut : String → String

/-- Result of running a command handler: a normal return with printed
output, a raised exception (with the output printed before the raise and
the exception message), or a `SystemExit`. -/
inductive ExecR
  | ok (st : TermState) (out : String)
  | exc (st : TermState) (out : String) (msg : String)
  | exitProg (st : TermState) (out : String)

def execStateOf : ExecR → TermState
  | .ok st _ => st
  | .exc st _ _ => st
  | .exitProg st _ => st

def execOut : ExecR → String
  | .ok _ out => out
  | .exc _ out _ => out
  | .exitProg _ out => out

/-- Model of `Terminal.cmd_help`. -/
def cmd_help (st : TermState) (_args : List String) : ExecR :=
  ExecR.ok st (printLn "Built-in commands:\n  help  pwd  ls  cd  mkdir  rm  touch  cat  echo\n  cp  mv  head  tail  ps  sysmon  df  history  exit|quit")

/-- Model of `Terminal.cmd_pwd`. -/
def cmd_pwd (st : TermState) (_args : List String) : ExecR :=
  ExecR.ok st (printLn (segsStr st.cwd))

/-- Model of `Terminal.cmd_echo`. -/
def cmd_echo (st : TermState) (args : List String) : ExecR :=
  ExecR.ok st (printLn (joinSep " " args))

/-- The argument loop of `cmd_ls` (src/main.py lines 154-157): "-a" sets the
show-all flag, any other argument overwrites the target. -/
def lsFold (acc : Bool × Option String) : List String → Bool × Option String
  | [] => acc
  | a :: rest => lsFold (if a = "-a" then (true, acc.2) else (acc.1, some a)) rest

/-- Model of `Path.iterdir()`: the immediate children of `p`, in filesystem
order (the on-disk order of `iterdir` is arbitrary). -/
def childEntries (fs : FS) (p : Segs) : List (String × Node) :=
  fs.filterMap (fun e =>
    if e.1.length = p.length + 1 ∧ p.isPrefixOf e.1 then some (e.1.getLastD "", e.2)
    else none)

/-- The `sorted` key of `cmd_ls`: directories first, then case-insensitive
name. -/
def lsLe (a b : String × Node) : Bool :=
  let ka : Nat := if a.2 = Node.dir then 0 else 1
  let kb : Nat := if b.2 = Node.dir then 0 else 1
  if ka = kb then a.1.toLower ≤ b.1.toLower else ka < kb

def startsWithDot (s : String) : Bool :=
  match s.data with
  | '.' :: _ => true
  | _ => false

/-- Body of `cmd_ls` after argument parsing. -/
def lsRun (st : TermState) (showAll : Bool) (target : Option String) : ExecR :=
  let path := match target with
    | none => st.cwd
    | some a => resolvePath st.root st.cwd a
  if fsExists st.fs path = false then ExecR.ok st (printLn "error: path not found")
  else if fsIsFile st.fs path then ExecR.ok st (printLn (path.getLastD ""))
  else
    let items := List.mergeSort (childEntries st.fs path) lsLe
    ExecR.ok st (concatAll (items.filterMap (fun e =>
      if showAll = false ∧ startsWithDot e.1 then none
      else some (printLn (e.1 ++ (if e.2 = Node.dir then "/" else ""))))))

/-- Model of `Terminal.cmd_ls`. -/
def cmd_ls (st : TermState) (args : List String) : ExecR :=
  let pr := lsFold (false, none) args
  lsRun st pr.1 pr.2

/-- Model of `Terminal.cmd_cd` (src/main.py lines 166-171). -/
def cmd_cd (st : TermState) (args : List String) : ExecR :=
  let path := match args with
    | [] => st.root
    | a :: _ => resolvePath st.root st.cwd a
  if fsExists st.fs path = false ∨ fsIsDir st.fs path = false then
    ExecR.ok st (printLn "error: no such directory")
  else if st.root.isPrefixOf path = false then
    ExecR.ok st (printLn "error: access outside project root is blocked")
  else ExecR.ok { st with cwd := path } ""

/-- The ancestor chain of `p` below the filesystem root, shortest first
(`p.take 1`, ..., `p` itself). -/
def prefixesOf (p : Segs) : List Segs := (List.range p.length).map (fun i => p.take (i + 1))

/-- Engine of `Path.mkdir(parents=True, exist_ok=True)`: walk the ancestor
chain, creating missing directories; a non-directory on the chain raises
(`FileExistsError` and kin).  The filesystem as modified so far is returned
alongside the error, matching the on-disk partial creation. -/
def mkdirGo (fs : FS) : List Segs → FS × Option String
  | [] => (fs, none)
  | q :: rest =>
    match fsLookup fs q with
    | some Node.dir => mkdirGo fs rest
    | some (Node.file _) => (fs, some ("FileExistsError: " ++ segsStr q))
    | none => mkdirGo ((q, Node.dir) :: fs) rest

/-- Model of `Path.mkdir(parents=True, exist_ok=True)` on path `p`. -/
def mkdirParents (fs : FS) (p : Segs) : FS × Option String := mkdirGo fs (prefixesOf p)

/-- The per-argument loop of `cmd_mkdir`; an exception aborts the loop (it
propagates to `execute`). -/
def cmdMkdirGo (st : TermState) : List String → ExecR
  | [] => ExecR.ok st ""
  | d :: rest =>
    match mkdirParents st.fs (resolvePath st.root st.cwd d) with
    | (fs2, some m) => ExecR.exc { st with fs := fs2 } "" m
    | (fs2, none) => cmdMkdirGo { st with fs := fs2 } rest

/-- Model of `Terminal.cmd_mkdir` (src/main.py lines 173-175). -/
def cmd_mkdir (st : TermState) (args : List String) : ExecR :=
  if args = [] then ExecR.ok st (printLn "error: usage: mkdir <dir>...")
  else cmdMkdirGo st args

/-- The argument loop of `cmd_rm`: "-r" sets the recursive flag, the rest
are target paths in order. -/
def rmParse (args : List String) : Bool × List String :=
  args.foldl (fun acc a => if a = "-r" then (true, acc.2) else (acc.1, acc.2 ++ [a])) (false, [])

/-- The per-path loop of `cmd_rm` (src/main.py lines 183-190), threading the
filesystem, the confirmation-answer stream and the printed output.  The
confirmation prompt itself is read through `input()` and is not part of the
captured output. -/
def rmGo (root cwd : Segs) (recursive : Bool) (fs : FS) (conf : List Bool) (out : String) :
    List String → FS × List Bool × String
  | [] => (fs, conf, out)
  | pstr :: rest =>
    let p := resolvePath root cwd pstr
    if fsExists fs p = false then
      rmGo root cwd recursive fs conf (out ++ printLn ("error: not found: " ++ pstr)) rest
    else if fsIsDir fs p then
      if recursive = false then
        rmGo root cwd recursive fs conf (out ++ printLn ("error: is a directory (use -r): " ++ pstr)) rest
      else
        match conf with
        | [] => rmGo root cwd recursive fs [] (out ++ printLn "aborted") rest
        | true :: ctail => rmGo root cwd recursive (fsRemoveTree fs p) ctail out rest
        | false :: ctail => rmGo root cwd recursive fs ctail (out ++ printLn "aborted") rest
    else rmGo root cwd recursive (fsRemoveKey fs p) conf out rest

/-- Model of `Terminal.cmd_rm` (src/main.py lines 177-190). -/
def cmd_rm (st : TermState) (args : List String) : ExecR :=
  if args = [] then ExecR.ok st (printLn "error: usage: rm [-r] <path>...")
  else
    let pr := rmParse args
    let r := rmGo st.root st.cwd pr.1 st.fs st.confirms "" pr.2
    ExecR.ok { st with fs := r.1, confirms := r.2.1 } r.2.2

/-- The per-file loop of `cmd_touch`: create parents, then open in append
mode (creating an empty file when missing, keeping content otherwise);
opening an existing directory raises. -/
def cmdTouchGo (st : TermState) : List String → ExecR
  | [] => ExecR.ok st ""
  | f :: rest =>
    let p := resolvePath st.root st.cwd f
    match mkdirParents st.fs p.dropLast with
    | (fs2, some m) => ExecR.exc { st with fs := fs2 } "" m
    | (fs2, none) =>
      match fsLookup fs2 p with
      | some Node.dir => ExecR.exc { st with fs := fs2 } "" ("IsADirectoryError: " ++ segsStr p)
      | some (Node.file _) => cmdTouchGo { st with fs := fs2 } rest
      | none => cmdTouchGo { st with fs := (p, Node.file "") :: fs2 } rest

/-- Model of `Terminal.cmd_touch`. -/
def cmd_touch (st : TermState) (args : List String) : ExecR :=
  if args = [] then ExecR.ok st (printLn "error: usage: touch <file>...")
  else cmdTouchGo st args

/-- The per-file loop of `cmd_cat`: a missing or non-regular path is a
per-file error; file content is printed with no extra newline. -/
def cmdCatGo (st : TermState) (out : String) : List String → ExecR
  | [] => ExecR.ok st out
  | f :: rest =>
    let p := resolvePath st.root st.cwd f
    match fsLookup st.fs p with
    | some (Node.file c) => cmdCatGo st (out ++ c) rest
    | _ => cmdCatGo st (out ++ printLn ("error: no such file: " ++ f)) rest

/-- Model of `Terminal.cmd_cat`. -/
def cmd_cat (st : TermState) (args : List String) : ExecR :=
  if args = [] then ExecR.ok st (printLn "error: usage: cat <file>...")
  else cmdCatGo st "" args

/-- The `name` of a canonical absolute path. -/
def segsName (p : Segs) : String := p.getLastD ""

/-- Joining `d / nm` for a `pathlib` name value (joining "" is the
identity). -/
def joinChild (d : Segs) (nm : String) : Segs := if nm = "" then d else d ++ [nm]

/-- Model of `shutil.copytree(src, dst, dirs_exist_ok=True)`: every entry at
or below `src` is written at the corresponding path below `dst`,
overwriting existing bindings.  Host-filesystem error cases of `copytree`
are not modelled (no claim exercises `cp`). -/
def fsCopyTree (fs : FS) (src dst : Segs) : FS :=
  let sub := fs.filterMap (fun e =>
    if src.isPrefixOf e.1 then some ((dst ++ e.1.drop src.length, e.2)) else none)
  sub.foldl (fun acc e => fsSet acc e.1 e.2) fs

/-- Model of `Terminal.cmd_cp` (src/main.py lines 207-217). -/
def cmd_cp (st : TermState) (args : List String) : ExecR :=
  match args with
  | a0 :: a1 :: _ =>
    let src := resolvePath st.root st.cwd a0
    let dst := resolvePath st.root st.cwd a1
    if fsExists st.fs src = false then ExecR.ok st (printLn "error: source not found")
    else if fsIsDir st.fs src then
      let dst2 := if fsExists st.fs dst && fsIsDir st.fs dst then joinChild dst (segsName src) else dst
      ExecR.ok { st with fs := fsCopyTree st.fs src dst2 } ""
    else
      let dst2 := if fsIsDir st.fs dst then joinChild dst (segsName src) else dst
      match fsLookup st.fs src with
      | some (Node.file c) =>
        match mkdirParents st.fs dst2.dropLast with
        | (fs2, some m) => ExecR.exc { st with fs := fs2 } "" m
        | (fs2, none) => ExecR.ok { st with fs := fsSet fs2 dst2 (Node.file c) } ""
      | _ => ExecR.ok st ""
  | _ => ExecR.ok st (printLn "error: usage: cp <src> <dst>")

/-- Model of `shutil.move`: re-key every entry at or below `src` to the
corresponding path below `dst`.  Overwrite and cross-device subtleties of
`shutil.move` are not modelled (no claim exercises `mv`). -/
def fsMoveTree (fs : FS) (src dst : Segs) : FS :=
  fs.map (fun e => if src.isPrefixOf e.1 then (dst ++ e.1.drop src.length, e.2) else e)

/-- Model of `Terminal.cmd_mv` (src/main.py lines 219-223). -/
def cmd_mv (st : TermState) (args : List String) : ExecR :=
  match args with
  | a0 :: a1 :: _ =>
    let src := resolvePath st.root st.cwd a0
    let dst := resolvePath st.root st.cwd a1
    if fsExists st.fs src = false then ExecR.ok st (printLn "error: source not found")
    else
      match mkdirParents st.fs dst.dropLast with
      | (fs2, some m) => ExecR.exc { st with fs := fs2 } "" m
      | (fs2, none) =>
        let dst2 := if fsIsDir fs2 dst then joinChild dst (segsName src) else dst
        ExecR.ok { st with fs := fsMoveTree fs2 src dst2 } ""
  | _ => ExecR.ok st (printLn "error: usage: mv <src> <dst>")

/-- The flag loop shared by `cmd_head` and `cmd_tail` (src/main.py lines
241-246 and 254-259): N starts at 10; "-n" consumes the next argument and
re-parses N, any failure (including a missing value) aborting with `none`;
other arguments are collected as files in order. -/
def ntParse : List String → Int → List String → Option (Int × List String)
  | [], n, files => some (n, files.reverse)
  | a :: rest, n, files =>
    if a = "-n" then
      match rest with
      | [] => none
      | v :: rest2 =>
        match pyInt? v with
        | none => none
        | some m => ntParse rest2 m files
    else ntParse rest n (a :: files)

/-- Model of `Terminal._read_n_lines` (src/main.py lines 225-237): nothing
for n at most 0; otherwise the first n lines, or for tail the last n lines
(the `deque(maxlen=n)` keeps the last n), printed with their original
terminators. -/
def readNLines (content : String) (n : Int) (isTail : Bool) : String :=
  if n ≤ 0 then ""
  else
    let lines := splitLinesKeepEnds content
    if isTail then concatAll (lines.drop (lines.length - n.toNat))
    else concatAll (lines.take n.toNat)

/-- The per-file loop shared by `cmd_head` and `cmd_tail`: a missing or
non-regular path is a per-file error. -/
def headTailGo (st : TermState) (n : Int) (isTail : Bool) (out : String) : List String → String
  | [] => out
  | f :: rest =>
    let p := resolvePath st.root st.cwd f
    match fsLookup st.fs p with
    | some (Node.file c) => headTailGo st n isTail (out ++ readNLines c n isTail) rest
    | _ => headTailGo st n isTail (out ++ printLn ("error: no such file: " ++ f)) rest

/-- Model of `Terminal.cmd_head` (src/main.py lines 239-250). -/
def cmd_head (st : TermState) (args : List String) : ExecR :=
  if args = [] then ExecR.ok st (printLn "error: usage: head [-n N] <file>")
  else
    match ntParse args 10 [] with
    | none => ExecR.ok st (printLn "error: invalid N")
    | some (n, files) => ExecR.ok st (headTailGo st n false "" files)

/-- Model of `Terminal.cmd_tail` (src/main.py lines 252-263). -/
def cmd_tail (st : TermState) (args : List String) : ExecR :=
  if args = [] then ExecR.ok st (printLn "error: usage: tail [-n N] <file>")
  else
    match ntParse args 10 [] with
    | none => ExecR.ok st (printLn "error: invalid N")
    | some (n, files) => ExecR.ok st (headTailGo st n true "" files)

/-- Commands whose output is host-system information (`ps`, `sysmon`, `df`,
`history`): modelled as reading the opaque environment view of the state;
they mutate nothing. -/
def cmdEnv (st : TermState) (nm : String) : ExecR := ExecR.ok st (st.envOut nm)

/-- Model of `Terminal.cmd_exit`: raises `SystemExit(0)`. -/
def cmd_exit (st : TermState) (_args : List String) : ExecR := ExecR.exitProg st ""

/-- Splitting on whitespace, as `shlex.split` does for input without quote
or escape characters (the only inputs the claims exercise; plan lines are
rebuilt by joining tokens with single spaces). -/
def splitWsAux : List Char → List Char → List String
  | [], [] => []
  | [], acc => [String.mk acc.reverse]
  | c :: rest, acc =>
    if c = ' ' ∨ c = '\t' ∨ c = '\n' then
      match acc with
      | [] => splitWsAux rest []
      | _ => String.mk acc.reverse :: splitWsAux rest []
    else splitWsAux rest (c :: acc)

def shlexSplit (s : String) : List String := splitWsAux s.data []

/-- An apostrophe character, kept out of string literals. -/
def sq : String := String.mk [Char.ofNat 39]

/-- The command table of `Terminal.__init__`. -/
def dispatchFn? (c : String) : Option (TermState → List String → ExecR) :=
  if c = "help" then some cmd_help
  else if c = "pwd" then some cmd_pwd
  else if c = "ls" then some cmd_ls
  else if c = "cd" then some cmd_cd
  else if c = "mkdir" then some cmd_mkdir
  else if c = "rm" then some cmd_rm
  else if c = "touch" then some cmd_touch
  else if c = "cat" then some cmd_cat
  else if c = "echo" then some cmd_echo
  else if c = "cp" then some cmd_cp
  else if c = "mv" then some cmd_mv
  else if c = "head" then some cmd_head
  else if c = "tail" then some cmd_tail
  else if c = "ps" then some (fun st _ => cmdEnv st "ps")
  else if c = "sysmon" then some (fun st _ => cmdEnv st "sysmon")
  else if c = "df" then some (fun st _ => cmdEnv st "df")
  else if c = "history" then some (fun st _ => cmdEnv st "history")
  else if c = "exit" then some cmd_exit
  else if c = "quit" then some cmd_exit
  else none

/-- The `except Exception` handler inside `Terminal.execute`: a raised
exception becomes a printed error line; `SystemExit` passes through. -/
def execWrap : ExecR → ExecR
  | .exc st out msg => ExecR.ok st (out ++ printLn ("error: " ++ msg))
  | r => r

/-- Model of `Terminal.execute` (src/main.py lines 131-143).  An empty token
list makes the tuple unpacking on line 136 raise a `ValueError` that is not
caught inside `execute`. -/
def execute (st : TermState) (line : String) : ExecR :=
  match shlexSplit line with
  | [] => ExecR.exc st "" "not enough values to unpack (expected at least 1, got 0)"
  | c :: args =>
    match dispatchFn? c with
    | none => ExecR.ok st (printLn ("error: unknown command: " ++ c ++ ". Try " ++ sq ++ "help" ++ sq ++ "."))
    | some fn => execWrap (fn st args)

/-- The text a command contributes to the combined output of
`run_commands`, after its echoed command line: its printed output, followed
by "error: ..." when it raised, or "exit" when it raised `SystemExit`
(src/executer.py lines 19-27). -/
def runChunk : ExecR → String
  | .ok _ out => out
  | .exc _ out msg => out ++ printLn ("error: " ++ msg)
  | .exitProg _ out => out ++ printLn "exit"

/-- One iteration of the `for cmd in plan` loop of `run_commands`: echo the
joined command line, run it, append its chunk.  The loop body catches
`SystemExit`, so the fold continues with the remaining commands. -/
def runStep (acc : TermState × String) (cmd : List String) : TermState × String :=
  let line := joinSep " " cmd
  let r := execute acc.1 line
  (execStateOf r, acc.2 ++ printLn ("$ " ++ line) ++ runChunk r)

/-- The printed plan of `run_commands`: each command rendered as the dollar
prompt followed by its space-joined tokens, joined by newlines. -/
def planText (plan : List (List String)) : String :=
  joinSep "\n" (plan.map (fun c => "$ " ++ joinSep " " c))

/-- Model of `run_commands` (src/executer.py): returns the printed plan and
the combined output, together with the final interpreter state.  With
`dryRun` set nothing executes and the combined output is the fixed
placeholder. -/
def run_commands (st : TermState) (plan : List (List String)) (dryRun : Bool) :
    (String × String) × TermState :=
  if dryRun then ((planText plan, "(dry run)"), st)
  else
    let r := plan.foldl runStep (st, "")
    ((planText plan, r.2), r.1)

/-- Boolean string-prefix test (used to state "the command reports an
error", i.e. its output starts with "error:"). -/
def startsWithStr (pre s : String) : Bool := pre.data.isPrefixOf s.data

/-- A sample sandbox filesystem for witnesses: root `/r` containing a
directory `d` and a three-line file `f.txt`. -/
def fsW : FS :=
  [([], Node.dir), (["r"], Node.dir), (["r", "d"], Node.dir),
   (["r", "f.txt"], Node.file "l1\nl2\nl3\n")]

/-- A sample interpreter state for witnesses, rooted at `/r`. -/
def stW : TermState := ⟨["r"], ["r"], fsW, [], fun _ => ""⟩

/-- A sample interpreter state whose pending confirmation answer is "no". -/
def stWn : TermState := ⟨["r"], ["r"], fsW, [false], fun _ => ""⟩

theorem normSegs_nil (acc : Segs) : normSegs acc [] = acc := rfl

theorem normSegs_singleton (acc : Segs) (s : String) (h : s ≠ "..") :
    normSegs acc [s] = acc ++ [s] := by
  simp [normSegs, h]

/-- Normalisation never introduces a ".." segment. -/
theorem normSegs_no_dotdot (l : List String) (acc : Segs) (h : ".." ∉ acc) :
    ".." ∉ normSegs acc l := by
  induction l generalizing acc with
  | nil => simpa [normSegs] using h
  | cons s rest ih =>
    by_cases hs : s = ".."
    · subst hs
      simp only [normSegs, if_pos rfl]
      exact ih _ (fun hmem => h ((List.dropLast_sublist acc).mem hmem))
    · simp only [normSegs, if_neg hs]
      refine ih _ ?_
      intro hmem
      rcases List.mem_append.mp hmem with h1 | h2
      · exact h h1
      · exact hs (List.mem_singleton.mp h2).symm

/-- The re-rooting fallback lands at `root` or a direct child of `root`
whenever the joined name is not "..". -/
theorem rootJoinName_prefix (root : Segs) (nm : String) (h : nm ≠ "..") :
    root.isPrefixOf (rootJoinName root nm) = true := by
  unfold rootJoinName
  by_cases h0 : nm = ""
  · simp [h0, normSegs, List.isPrefixOf_iff_prefix]
  · simp only [if_neg h0, normSegs_singleton _ _ h]
    simp [List.isPrefixOf_iff_prefix]

theorem getLastD_mem_of_ne (l : List String) (d : String) (h : l.getLastD d ≠ d) :
    l.getLastD d ∈ l := by
  cases l with
  | nil => simp [List.getLastD] at h
  | cons a t =>
    rw [List.getLastD_eq_getLast?]
    simp only [List.getLast?_cons]
    exact List.mem_of_mem_getLast? (by simp [List.getLast?_cons])

theorem resolvePath_empty (root cwd : Segs) : resolvePath root cwd "" = cwd := rfl

/-- Core confinement lemma: whatever the input string, `_resolve_path` lands
at `root` or below it, provided the current directory is canonical (no "..")
and itself inside `root`. -/
theorem resolvePath_prefix_helper (root cwd : Segs) (s : String)
    (hc : ".." ∉ cwd) (hin : root.isPrefixOf cwd = true) :
    root.isPrefixOf (resolvePath root cwd s) = true := by
  unfold resolvePath
  by_cases hs : s = ""
  · simpa [hs] using hin
  · simp only [if_neg hs]
    set p := parsePath s with hp
    set r := rawResolve cwd p with hr
    by_cases hpre : root.isPrefixOf r
    · simp [hpre]
    · have hnod : ".." ∉ r := by
        rw [hr]
        unfold rawResolve
        by_cases ha : p.absolute
        · simpa [ha] using normSegs_no_dotdot p.segs [] (by simp)
        · simpa [ha] using normSegs_no_dotdot p.segs cwd hc
      have hnm : (PPath.mk true r).name ≠ ".." := by
        intro hcon
        have : (".." : String) ∈ r := by
          have := getLastD_mem_of_ne r "" (by rw [show r.getLastD "" = (PPath.mk true r).name from rfl, hcon]; intro h; exact absurd h (by decide))
          rwa [show r.getLastD "" = (PPath.mk true r).name from rfl, hcon] at this
        exact hnod this
      simp only [Bool.not_eq_true] at hpre
      simp [hpre, rootJoinName_prefix root _ hnm]

/-- Unfolding of the re-rooting branch of `_resolve_path`. -/
theorem resolvePath_clamp_eq (root cwd : Segs) (s : String)
    (h1 : s ≠ "") (h2 : root.isPrefixOf (rawResolve cwd (parsePath s)) = false) :
    resolvePath root cwd s =
      rootJoinName root ((PPath.mk true (rawResolve cwd (parsePath s))).name) := by
  simp [resolvePath, h1, h2]

/-- C1 (amended): for every input path string, `_resolve_path` returns an
absolute path that is Root or a descendant of Root and never raises (it is a
total function); an input whose canonical form lies outside Root is silently
clamped to Root joined with the basename of the canonical (resolved) form of
the input - not, as the claim states, the basename of the raw input. -/
theorem resolve_path_confined (root cwd : Segs) (s : String)
    (hc : ".." ∉ cwd) (hin : root.isPrefixOf cwd = true) :
    root.isPrefixOf (resolvePath root cwd s) = true ∧
    (s ≠ "" → root.isPrefixOf (rawResolve cwd (parsePath s)) = false →
      resolvePath root cwd s =
        rootJoinName root ((PPath.mk true (rawResolve cwd (parsePath s))).name)) :=
  ⟨resolvePath_prefix_helper root cwd s hc hin,
   fun h1 h2 => resolvePath_clamp_eq root cwd s h1 h2⟩

/-- Witness for C1 at root `/r`, cwd `/r`, input "../..". -/
theorem resolve_path_confined_witness :
    (".." ∉ (["r"] : Segs)) ∧ List.isPrefixOf ["r"] ["r"] = true ∧
    List.isPrefixOf ["r"] (resolvePath ["r"] ["r"] "../..") = true :=
  ⟨by decide, by decide,
   (resolve_path_confined ["r"] ["r"] "../.." (by decide) (by decide)).1⟩

/-- Counterexample to C1 as stated: for input "../.." with root = cwd = /r,
the canonical form "/" lies outside Root and the code returns Root itself
(/r), while "Root joined with the input's basename" is /r/.. , i.e. "/" after
resolution - a path outside Root and different from the code's result. -/
theorem resolve_path_basename_cex :
    resolvePath ["r"] ["r"] "../.." = ["r"] ∧
    (parsePath "../..").name = ".." ∧
    rootJoinName ["r"] ((parsePath "../..").name) = [] ∧
    (["r"] : Segs) ≠ ([] : Segs) := by
  refine ⟨by decide, by decide, by decide, by decide⟩

/-- C4 (amended): for every relative path input p, resolve(p) is Root or a
descendant of Root (given a canonical cwd inside Root), and resolve(p) equals
cwd - hence Root when cwd is Root - when p is empty. The converse of the
emptiness clause is false: the nonempty input "." also resolves to cwd. -/
theorem resolve_path_relative (root cwd : Segs) (s : String)
    (habs : (parsePath s).absolute = false)
    (hc : ".." ∉ cwd) (hin : root.isPrefixOf cwd = true) :
    root.isPrefixOf (resolvePath root cwd s) = true ∧
    (s = "" → resolvePath root cwd s = cwd) :=
  ⟨resolvePath_prefix_helper root cwd s hc hin, fun h => by simp [h, resolvePath_empty]⟩

/-- Witness for C4 at root `/r`, cwd `/r`, relative input "a/b". -/
theorem resolve_path_relative_witness :
    (parsePath "a/b").absolute = false ∧ (".." ∉ (["r"] : Segs)) ∧
    List.isPrefixOf ["r"] (resolvePath ["r"] ["r"] "a/b") = true :=
  ⟨by decide, by decide,
   (resolve_path_relative ["r"] ["r"] "a/b" (by decide) (by decide) (by decide)).1⟩

/-- Counterexample to C4 as stated: the relative, nonempty input "." resolves
to Root (with cwd = Root), refuting "resolve(p) equals Root only if p is
empty". -/
theorem resolve_path_iff_cex :
    (parsePath ".").absolute = false ∧
    resolvePath ["r"] ["r"] "." = ["r"] ∧ ("." : String) ≠ "" := by
  refine ⟨by decide, by decide, by decide⟩

/-- Folding the executor loop from an accumulated output `pre` only prepends
`pre` to the output accumulated from the empty string, and reaches the same
final state. -/
theorem runFold_shift (plan : List (List String)) (st : TermState) (pre : String) :
    plan.foldl runStep (st, pre) =
      ((plan.foldl runStep (st, "")).1, pre ++ (plan.foldl runStep (st, "")).2) := by
  induction plan generalizing st pre with
  | nil => simp
  | cons c rest ih =>
    simp only [List.foldl_cons]
    rw [show runStep (st, pre) c =
          ((runStep (st, "") c).1, pre ++ (runStep (st, "") c).2) by
        simp [runStep, String.append_assoc]]
    rw [ih _ (pre ++ (runStep (st, "") c).2)]
    rw [ih ((runStep (st, "") c).1) ((runStep (st, "") c).2)]
    refine Prod.ext rfl ?_
    simp [String.append_assoc]

/-- C6 (confirmed): with dryRun set, `run_commands` returns only the plan
description - each command rendered as the dollar prompt with its
space-joined tokens - the combined output is the fixed "(dry run)"
placeholder, and the interpreter state (cwd, filesystem, everything) is
returned unchanged: nothing executes. -/
theorem run_commands_dry_run (st : TermState) (plan : List (List String)) :
    run_commands st plan true = ((planText plan, "(dry run)"), st) ∧
    planText plan = joinSep "\n" (plan.map (fun c => "$ " ++ joinSep " " c)) :=
  ⟨rfl, rfl⟩

/-- C2 (amended): with dryRun unset, each command of the plan is executed in
order, its command line echoed as a dollar-prompt line before its output,
and all output is concatenated in execution order; neither an error nor an
explicit termination request (`exit`) stops the remaining commands - `exit`
is caught by the per-command handler, rendered as an "exit" line, and the
loop continues with the rest of the plan. -/
theorem run_commands_no_halt (st : TermState) (c : List String) (rest : List (List String)) :
    (run_commands st (c :: rest) false).1.2 =
      printLn ("$ " ++ joinSep " " c) ++ runChunk (execute st (joinSep " " c)) ++
        (run_commands (execStateOf (execute st (joinSep " " c))) rest false).1.2 ∧
    (run_commands st (c :: rest) false).2 =
      (run_commands (execStateOf (execute st (joinSep " " c))) rest false).2 ∧
    (∀ st2 out, runChunk (ExecR.exitProg st2 out) = out ++ printLn "exit") ∧
    (∀ st2 out, runChunk (ExecR.ok st2 out) = out) ∧
    (∀ st2 out msg, runChunk (ExecR.exc st2 out msg) = out ++ printLn ("error: " ++ msg)) := by
  refine ⟨?_, ?_, fun _ _ => rfl, fun _ _ => rfl, fun _ _ _ => rfl⟩
  · show (((c :: rest).foldl runStep (st, "")).2) = _
    rw [List.foldl_cons, runFold_shift]
    simp [runStep, run_commands, String.append_assoc]
  · show (((c :: rest).foldl runStep (st, "")).1) = _
    rw [List.foldl_cons, runFold_shift]
    simp [runStep, run_commands]

/-- Counterexample to C2 as stated: in the plan `[exit, echo hi]` the `exit`
command is rendered as an "exit" line but the following `echo hi` still
runs; the combined output is not the halted form. -/
theorem run_commands_exit_cex :
    (run_commands stW [["exit"], ["echo", "hi"]] false).1.2 =
      "$ exit\nexit\n$ echo hi\nhi\n" ∧
    "$ exit\nexit\n$ echo hi\nhi\n" ≠ "$ exit\nexit\n" := by
  exact ⟨rfl, by decide⟩

theorem fsIsDir_imp_exists {fs : FS} {p : Segs} (h : fsIsDir fs p = true) :
    fsExists fs p = true := by
  unfold fsIsDir at h
  unfold fsExists
  rw [decide_eq_true_eq] at h
  rw [h]
  rfl

/-- C3 (confirmed): a cd argument whose resolved target does not exist, is
not a directory, or does not land inside Root, makes `cmd_cd` report an
error and leave the whole interpreter state (in particular cwd) unchanged;
cd with no argument sets cwd to Root (the root directory exists, as
`_ensure_root_exists` guarantees). -/
theorem cmd_cd_guarded (st : TermState) (a : String) :
    ((fsExists st.fs (resolvePath st.root st.cwd a) = false ∨
      fsIsDir st.fs (resolvePath st.root st.cwd a) = false ∨
      st.root.isPrefixOf (resolvePath st.root st.cwd a) = false) →
      execStateOf (cmd_cd st [a]) = st ∧
      startsWithStr "error:" (execOut (cmd_cd st [a])) = true) ∧
    (fsIsDir st.fs st.root = true →
      cmd_cd st [] = ExecR.ok { st with cwd := st.root } "") := by
  constructor
  · intro h
    by_cases h1 : fsExists st.fs (resolvePath st.root st.cwd a) = false
    · have hc : cmd_cd st [a] = ExecR.ok st (printLn "error: no such directory") := by
        simp [cmd_cd, h1]
      rw [hc]
      exact ⟨rfl, rfl⟩
    · have h1t : fsExists st.fs (resolvePath st.root st.cwd a) = true := by
        simpa using h1
      by_cases h2 : fsIsDir st.fs (resolvePath st.root st.cwd a) = false
      · have hc : cmd_cd st [a] = ExecR.ok st (printLn "error: no such directory") := by
          simp [cmd_cd, h2]
        rw [hc]
        exact ⟨rfl, rfl⟩
      · have h2t : fsIsDir st.fs (resolvePath st.root st.cwd a) = true := by
          simpa using h2
        have h3 : st.root.isPrefixOf (resolvePath st.root st.cwd a) = false := by
          rcases h with h | h | h
          · rw [h1t] at h; exact absurd h (by simp)
          · rw [h2t] at h; exact absurd h (by simp)
          · exact h
        have hc : cmd_cd st [a] =
            ExecR.ok st (printLn "error: access outside project root is blocked") := by
          simp [cmd_cd, h1t, h2t, h3]
        rw [hc]
        exact ⟨rfl, rfl⟩
  · intro hd
    have he : fsExists st.fs st.root = true := fsIsDir_imp_exists hd
    have hp : st.root.isPrefixOf st.root = true :=
      (List.isPrefixOf_iff_prefix).mpr (List.prefix_refl _)
    simp [cmd_cd, he, hd, hp]

/-- Witness for C3: `cd nope` errors and leaves the state unchanged; `cd`
with no argument returns to Root. -/
theorem cmd_cd_guarded_witness :
    fsExists stW.fs (resolvePath stW.root stW.cwd "nope") = false ∧
    execStateOf (cmd_cd stW ["nope"]) = stW ∧
    startsWithStr "error:" (execOut (cmd_cd stW ["nope"])) = true ∧
    fsIsDir stW.fs stW.root = true ∧
    cmd_cd stW [] = ExecR.ok { stW with cwd := stW.root } "" := by
  have h := cmd_cd_guarded stW "nope"
  refine ⟨by decide, (h.1 (Or.inl (by decide))).1, (h.1 (Or.inl (by decide))).2,
    by decide, h.2 (by decide)⟩

/-- C5 (confirmed): in an rm invocation, a missing target is a per-path
error; a directory without -r is a per-path error; a recursive removal whose
confirmation is declined (or meets end-of-input) prints "aborted" - which is
not an error line - and leaves the directory intact; in all three cases the
filesystem is unchanged at that step and processing continues with the
remaining target paths.  The last conjunct states the same for a whole
`cmd_rm` invocation with a declined confirmation. -/
theorem cmd_rm_cases (root cwd : Segs) (recursive : Bool) (fs : FS) (conf : List Bool)
    (out : String) (pstr : String) (rest : List String) :
    (fsExists fs (resolvePath root cwd pstr) = false →
      rmGo root cwd recursive fs conf out (pstr :: rest) =
        rmGo root cwd recursive fs conf (out ++ printLn ("error: not found: " ++ pstr)) rest) ∧
    (fsIsDir fs (resolvePath root cwd pstr) = true → recursive = false →
      rmGo root cwd recursive fs conf out (pstr :: rest) =
        rmGo root cwd recursive fs conf
          (out ++ printLn ("error: is a directory (use -r): " ++ pstr)) rest) ∧
    (fsIsDir fs (resolvePath root cwd pstr) = true → recursive = true →
      conf.headD false = false →
      rmGo root cwd recursive fs conf out (pstr :: rest) =
        rmGo root cwd recursive fs conf.tail (out ++ printLn "aborted") rest) ∧
    startsWithStr "error" (printLn "aborted") = false ∧
    (∀ st : TermState, pstr ≠ "-r" → st.confirms.headD false = false →
      fsIsDir st.fs (resolvePath st.root st.cwd pstr) = true →
      cmd_rm st ["-r", pstr] =
        ExecR.ok { st with confirms := st.confirms.tail } (printLn "aborted")) := by
  refine ⟨?_, ?_, ?_, by decide, ?_⟩
  · intro h
    simp [rmGo, h]
  · intro hd hr
    have he : fsExists fs (resolvePath root cwd pstr) = true := fsIsDir_imp_exists hd
    subst hr
    simp [rmGo, he, hd]
  · intro hd hr hc
    have he : fsExists fs (resolvePath root cwd pstr) = true := fsIsDir_imp_exists hd
    subst hr
    cases conf with
    | nil => simp [rmGo, he, hd]
    | cons b t =>
      cases b with
      | false => simp [rmGo, he, hd]
      | true => simp at hc
  · intro st hne hc hd
    have he : fsExists st.fs (resolvePath st.root st.cwd pstr) = true := fsIsDir_imp_exists hd
    have hparse : rmParse ["-r", pstr] = (true, [pstr]) := by
      simp [rmParse, List.foldl, hne]
    have hgo : rmGo st.root st.cwd true st.fs st.confirms "" [pstr] =
        (st.fs, st.confirms.tail, printLn "aborted") := by
      cases hcf : st.confirms with
      | nil => simp [rmGo, he, hd]
      | cons b t =>
        cases b with
        | false => simp [rmGo, he, hd]
        | true => rw [hcf] at hc; simp at hc
    simp [cmd_rm, hparse, hgo]

/-- Witness for C5 at the sample state: missing path, directory without -r,
and a declined recursive removal of `/r/d`. -/
theorem cmd_rm_cases_witness :
    (rmGo ["r"] ["r"] false fsW [] "" ["nope"] =
      rmGo ["r"] ["r"] false fsW [] (printLn "error: not found: nope") []) ∧
    (rmGo ["r"] ["r"] false fsW [] "" ["d"] =
      rmGo ["r"] ["r"] false fsW [] (printLn "error: is a directory (use -r): d") []) ∧
    (rmGo ["r"] ["r"] true fsW [false] "" ["d"] =
      rmGo ["r"] ["r"] true fsW [] (printLn "aborted") []) ∧
    cmd_rm stWn ["-r", "d"] =
      ExecR.ok { stWn with confirms := [] } (printLn "aborted") := by
  refine ⟨?_, ?_, ?_, ?_⟩
  · have h := (cmd_rm_cases ["r"] ["r"] false fsW [] "" "nope" []).1 (by decide)
    simpa using h
  · have h := (cmd_rm_cases ["r"] ["r"] false fsW [] "" "d" []).2.1 (by decide) rfl
    simpa using h
  · have h := (cmd_rm_cases ["r"] ["r"] true fsW [false] "" "d" []).2.2.1 (by decide) rfl
      (by decide)
    simpa using h
  · have h := (cmd_rm_cases ["r"] ["r"] true fsW [false] "" "d" []).2.2.2.2 stWn
      (by decide) (by decide) (by decide)
    simpa using h

/-- Engine lemma for mkdir: when no entry on the walked chain is a file, the
walk succeeds, every walked path is a directory afterwards, and nothing else
changes. -/
theorem mkdirGo_spec (qs : List Segs) (fs : FS) (h : ∀ q ∈ qs, fsIsFile fs q = false) :
    (mkdirGo fs qs).2 = none ∧
    (∀ q ∈ qs, fsIsDir (mkdirGo fs qs).1 q = true) ∧
    (∀ k, k ∉ qs → fsLookup (mkdirGo fs qs).1 k = fsLookup fs k) := by
  induction qs generalizing fs with
  | nil => exact ⟨rfl, by simp, fun k _ => rfl⟩
  | cons q rest ih =>
    cases hq : fsLookup fs q with
    | none =>
      have hstep : mkdirGo fs (q :: rest) = mkdirGo ((q, Node.dir) :: fs) rest := by
        simp [mkdirGo, hq]
      have hrest : ∀ p ∈ rest, fsIsFile ((q, Node.dir) :: fs) p = false := by
        intro p hp
        by_cases hqp : q = p
        · simp [fsIsFile, fsLookup, hqp]
        · simp only [fsIsFile, fsLookup, if_neg hqp]
          exact h p (List.mem_cons_of_mem _ hp)
      obtain ⟨e1, e2, e3⟩ := ih ((q, Node.dir) :: fs) hrest
      rw [hstep]
      refine ⟨e1, ?_, ?_⟩
      · intro p hp
        rcases List.mem_cons.mp hp with hpq | hpr
        · subst hpq
          by_cases hqr : p ∈ rest
          · exact e2 p hqr
          · rw [fsIsDir, e3 p hqr]
            simp [fsLookup]
        · exact e2 p hpr
      · intro k hk
        rw [e3 k (fun hkr => hk (List.mem_cons_of_mem _ hkr))]
        have hqk : q ≠ k := fun hqk => hk (hqk ▸ List.mem_cons_self _ _)
        simp [fsLookup, hqk]
    | some n =>
      cases n with
      | dir =>
        have hstep : mkdirGo fs (q :: rest) = mkdirGo fs rest := by
          simp [mkdirGo, hq]
        obtain ⟨e1, e2, e3⟩ := ih fs (fun p hp => h p (List.mem_cons_of_mem _ hp))
        rw [hstep]
        refine ⟨e1, ?_, fun k hk => e3 k (fun hkr => hk (List.mem_cons_of_mem _ hkr))⟩
        intro p hp
        rcases List.mem_cons.mp hp with hpq | hpr
        · subst hpq
          by_cases hqr : p ∈ rest
          · exact e2 p hqr
          · rw [fsIsDir, e3 p hqr, hq]
            simp
        · exact e2 p hpr
      | file c =>
        have := h q (List.mem_cons_self _ _)
        rw [fsIsFile, hq] at this
        simp at this

/-- A walk over paths that are already directories changes nothing and
raises nothing. -/
theorem mkdirGo_idem (qs : List Segs) (fs : FS) (h : ∀ q ∈ qs, fsIsDir fs q = true) :
    mkdirGo fs qs = (fs, none) := by
  induction qs with
  | nil => rfl
  | cons q rest ih =>
    have hq : fsLookup fs q = some Node.dir := by
      have := h q (List.mem_cons_self _ _)
      rwa [fsIsDir, decide_eq_true_eq] at this
    rw [show mkdirGo fs (q :: rest) = mkdirGo fs rest by simp [mkdirGo, hq]]
    exact ih (fun p hp => h p (List.mem_cons_of_mem _ hp))

/-- C8 (confirmed): when no entry on the ancestor chain of the resolved
target is a regular file, `mkdir` succeeds silently, creates the directory
together with any missing parents, and repeating the same invocation on the
resulting state succeeds without error and changes nothing. -/
theorem cmd_mkdir_idempotent (st : TermState) (d : String)
    (h : ∀ q ∈ prefixesOf (resolvePath st.root st.cwd d), fsIsFile st.fs q = false) :
    ∃ fs2, cmd_mkdir st [d] = ExecR.ok { st with fs := fs2 } "" ∧
      (∀ q ∈ prefixesOf (resolvePath st.root st.cwd d), fsIsDir fs2 q = true) ∧
      cmd_mkdir { st with fs := fs2 } [d] = ExecR.ok { st with fs := fs2 } "" := by
  obtain ⟨e1, e2, e3⟩ := mkdirGo_spec (prefixesOf (resolvePath st.root st.cwd d)) st.fs h
  refine ⟨(mkdirGo st.fs (prefixesOf (resolvePath st.root st.cwd d))).1, ?_, e2, ?_⟩
  · have hmp : mkdirParents st.fs (resolvePath st.root st.cwd d) =
        ((mkdirGo st.fs (prefixesOf (resolvePath st.root st.cwd d))).1, none) := by
      rw [mkdirParents]
      exact Prod.ext rfl e1
    simp [cmd_mkdir, cmdMkdirGo, hmp]
  · have hmp2 : mkdirParents (mkdirGo st.fs (prefixesOf (resolvePath st.root st.cwd d))).1
        (resolvePath st.root st.cwd d) =
        ((mkdirGo st.fs (prefixesOf (resolvePath st.root st.cwd d))).1, none) := by
      rw [mkdirParents]
      exact mkdirGo_idem _ _ e2
    simp [cmd_mkdir, cmdMkdirGo, hmp2]

/-- Witness for C8: `mkdir a/b` at the sample state, repeated. -/
theorem cmd_mkdir_idempotent_witness :
    (∀ q ∈ prefixesOf (resolvePath stW.root stW.cwd "a/b"), fsIsFile stW.fs q = false) ∧
    ∃ fs2, cmd_mkdir stW ["a/b"] = ExecR.ok { stW with fs := fs2 } "" ∧
      (∀ q ∈ prefixesOf (resolvePath stW.root stW.cwd "a/b"), fsIsDir fs2 q = true) ∧
      cmd_mkdir { stW with fs := fs2 } ["a/b"] = ExecR.ok { stW with fs := fs2 } "" :=
  ⟨by decide, cmd_mkdir_idempotent stW "a/b" (by decide)⟩

theorem strMk_append (a b : List Char) : String.mk a ++ String.mk b = String.mk (a ++ b) := rfl

/-- Concatenating the chunks produced by line splitting restores the pending
accumulator followed by the remaining text. -/
theorem concat_splitLinesAux (cs : List Char) (acc : List Char) :
    concatAll (splitLinesAux cs acc) = String.mk acc.reverse ++ String.mk cs := by
  induction cs generalizing acc with
  | nil =>
    cases acc with
    | nil => rfl
    | cons a t => simp [splitLinesAux, concatAll, strMk_append]
  | cons c rest ih =>
    by_cases hc : c = '\n'
    · subst hc
      simp only [splitLinesAux, if_pos rfl, concatAll, ih [], strMk_append]
      simp
    · simp only [splitLinesAux, if_neg hc, ih (c :: acc), strMk_append]
      simp

/-- Line splitting loses nothing: the lines concatenate back to the original
text, in order, with their original terminators. -/
theorem concat_splitLines (s : String) : concatAll (splitLinesKeepEnds s) = s := by
  rw [splitLinesKeepEnds, concat_splitLinesAux]
  cases s
  rfl

/-- The flag loop leaves N at its starting value and the files in order when
no "-n" occurs. -/
theorem ntParse_no_flag (args : List String) (n : Int) (files : List String)
    (h : "-n" ∉ args) : ntParse args n files = some (n, files.reverse ++ args) := by
  induction args generalizing files with
  | nil => simp [ntParse]
  | cons a rest ih =>
    have ha : a ≠ "-n" := fun hh => h (hh ▸ List.mem_cons_self _ _)
    rw [show ntParse (a :: rest) n files = ntParse rest n (a :: files) by
      rw [ntParse.eq_def]
      simp [ha]]
    rw [ih (a :: files) (fun hr => h (List.mem_cons_of_mem _ hr))]
    simp

theorem readNLines_head_eq (s : String) (n : Int) :
    readNLines s n false = concatAll ((splitLinesKeepEnds s).take n.toNat) := by
  unfold readNLines
  by_cases h : n ≤ 0
  · simp [h, Int.toNat_of_nonpos h, concatAll]
  · simp [h]

theorem readNLines_tail_eq (s : String) (n : Int) :
    readNLines s n true =
      concatAll ((splitLinesKeepEnds s).drop ((splitLinesKeepEnds s).length - n.toNat)) := by
  unfold readNLines
  by_cases h : n ≤ 0
  · simp [h, Int.toNat_of_nonpos h, List.drop_length, concatAll]
  · simp [h]

/-- C7 (confirmed): N defaults to 10 when no -n flag occurs; on an existing
regular file, head prints the first N lines and tail the last N lines, in
original order with original terminators (their concatenation is the file
text itself); a -n value that does not parse as an integer aborts the whole
command with "invalid N" before any file is processed, for head and tail
alike. -/
theorem head_tail_spec :
    (∀ args : List String, "-n" ∉ args → ntParse args 10 [] = some (10, args)) ∧
    (∀ (st : TermState) (ns : String) (n : Int) (f s : String),
      pyInt? ns = some n → f ≠ "-n" →
      fsLookup st.fs (resolvePath st.root st.cwd f) = some (Node.file s) →
      execOut (cmd_head st ["-n", ns, f]) =
        concatAll ((splitLinesKeepEnds s).take n.toNat) ∧
      execOut (cmd_tail st ["-n", ns, f]) =
        concatAll ((splitLinesKeepEnds s).drop ((splitLinesKeepEnds s).length - n.toNat))) ∧
    (∀ s : String, concatAll (splitLinesKeepEnds s) = s) ∧
    (∀ (st : TermState) (args : List String), args ≠ [] → ntParse args 10 [] = none →
      cmd_head st args = ExecR.ok st (printLn "error: invalid N") ∧
      cmd_tail st args = ExecR.ok st (printLn "error: invalid N")) := by
  refine ⟨?_, ?_, concat_splitLines, ?_⟩
  · intro args h
    simpa using ntParse_no_flag args 10 [] h
  · intro st ns n f s hpy hf hlook
    have hparse : ntParse ["-n", ns, f] 10 [] = some (n, [f]) := by
      simp [ntParse, hpy, hf]
    have hgo : ∀ isT : Bool, headTailGo st n isT "" [f] = readNLines s n isT := by
      intro isT
      simp [headTailGo, hlook]
    constructor
    · rw [show cmd_head st ["-n", ns, f] =
          ExecR.ok st (headTailGo st n false "" [f]) by simp [cmd_head, hparse]]
      rw [hgo false, readNLines_head_eq]
      rfl
    · rw [show cmd_tail st ["-n", ns, f] =
          ExecR.ok st (headTailGo st n true "" [f]) by simp [cmd_tail, hparse]]
      rw [hgo true, readNLines_tail_eq]
      rfl
  · intro st args ha hp
    exact ⟨by simp [cmd_head, ha, hp], by simp [cmd_tail, ha, hp]⟩

/-- Witness for C7 at the sample state: default N, head/tail of the
three-line `/r/f.txt` with N = 2, losslessness, and an invalid N. -/
theorem head_tail_spec_witness :
    ntParse ["a", "b"] 10 [] = some (10, ["a", "b"]) ∧
    execOut (cmd_head stW ["-n", "2", "f.txt"]) =
      concatAll ((splitLinesKeepEnds "l1\nl2\nl3\n").take ((2 : Int)).toNat) ∧
    execOut (cmd_tail stW ["-n", "2", "f.txt"]) =
      concatAll ((splitLinesKeepEnds "l1\nl2\nl3\n").drop
        ((splitLinesKeepEnds "l1\nl2\nl3\n").length - ((2 : Int)).toNat)) ∧
    concatAll (splitLinesKeepEnds "ab\ncd") = "ab\ncd" ∧
    cmd_head stW ["-n", "zz", "f.txt"] = ExecR.ok stW (printLn "error: invalid N") ∧
    cmd_tail stW ["-n", "zz", "f.txt"] = ExecR.ok stW (printLn "error: invalid N") := by
  have h2 := head_tail_spec.2.1 stW "2" 2 "f.txt" "l1\nl2\nl3\n" (by decide) (by decide) rfl
  have h4 := head_tail_spec.2.2.2 stW ["-n", "zz", "f.txt"] (by decide) (by decide)
  exact ⟨head_tail_spec.1 ["a", "b"] (by decide), h2.1, h2.2,
    head_tail_spec.2.2.1 "ab\ncd", h4.1, h4.2⟩

/-- The per-file loop prints nothing when N is nonpositive and every target
is an existing regular file. -/
theorem headTailGo_nonpos (st : TermState) (n : Int) (isT : Bool) (out : String)
    (files : List String) (hn : n ≤ 0)
    (hf : ∀ f ∈ files, fsIsFile st.fs (resolvePath st.root st.cwd f) = true) :
    headTailGo st n isT out files = out := by
  induction files generalizing out with
  | nil => rfl
  | cons f rest ih =>
    have hff := hf f (List.mem_cons_self _ _)
    cases hl : fsLookup st.fs (resolvePath st.root st.cwd f) with
    | none => rw [fsIsFile, hl] at hff; simp at hff
    | some node =>
      cases node with
      | dir => rw [fsIsFile, hl] at hff; simp at hff
      | file c =>
        rw [show headTailGo st n isT out (f :: rest) =
            headTailGo st n isT (out ++ readNLines c n isT) rest by
          simp [headTailGo, hl]]
        rw [show readNLines c n isT = "" by simp [readNLines, hn]]
        rw [show out ++ "" = out by simp]
        exact ih out (fun g hg => hf g (List.mem_cons_of_mem _ hg))

/-- C9 (confirmed): when the -n value parses to an integer N at most 0, head
and tail print nothing for each existing regular file and report no error:
the whole command output is empty and the state unchanged. -/
theorem head_tail_nonpositive (st : TermState) (args : List String) (n : Int)
    (files : List String) (ha : args ≠ []) (hp : ntParse args 10 [] = some (n, files))
    (hn : n ≤ 0)
    (hf : ∀ f ∈ files, fsIsFile st.fs (resolvePath st.root st.cwd f) = true) :
    cmd_head st args = ExecR.ok st "" ∧ cmd_tail st args = ExecR.ok st "" := by
  have h1 := headTailGo_nonpos st n false "" files hn hf
  have h2 := headTailGo_nonpos st n true "" files hn hf
  exact ⟨by simp [cmd_head, ha, hp, h1], by simp [cmd_tail, ha, hp, h2]⟩

/-- Witness for C9: `head -n 0 f.txt` and `tail -n 0 f.txt` at the sample
state. -/
theorem head_tail_nonpositive_witness :
    cmd_head stW ["-n", "0", "f.txt"] = ExecR.ok stW "" ∧
    cmd_tail stW ["-n", "0", "f.txt"] = ExecR.ok stW "" :=
  head_tail_nonpositive stW ["-n", "0", "f.txt"] 0 ["f.txt"] (by decide) (by decide)
    (by decide) (by decide)

theorem lsFold_append (acc : Bool × Option String) (xs ys : List String) :
    lsFold acc (xs ++ ys) = lsFold (lsFold acc xs) ys := by
  induction xs generalizing acc with
  | nil => rfl
  | cons a rest ih => simp [lsFold, ih]

theorem lsFold_fst (acc : Bool × Option String) (xs : List String) :
    (lsFold acc xs).1 = (acc.1 || xs.any (fun a => a = "-a")) := by
  induction xs generalizing acc with
  | nil => simp [lsFold]
  | cons a rest ih =>
    by_cases ha : a = "-a"
    · simp [lsFold, ha, ih]
    · simp [lsFold, ha, ih]

theorem any_filter_keep (xs : List String) :
    ((xs.filter (fun a => a = "-a")).any (fun a => a = "-a")) =
      xs.any (fun a => a = "-a") := by
  induction xs with
  | nil => rfl
  | cons a rest ih =>
    by_cases ha : a = "-a"
    · simp [ha, ih]
    · simp [List.filter, ha, ih]

/-- C10 (confirmed): when ls is given several non-flag arguments, only the
last one is used as the listing target - dropping all earlier positional
arguments (while keeping any "-a" flags) gives the identical command result,
so the earlier positional arguments are silently ignored, neither listed nor
rejected. -/
theorem cmd_ls_last_target (st : TermState) (pre : List String) (t : String)
    (h : t ≠ "-a") :
    cmd_ls st (pre ++ [t]) = cmd_ls st (pre.filter (fun a => a = "-a") ++ [t]) := by
  have h1 : lsFold (false, none) (pre ++ [t]) = ((lsFold (false, none) pre).1, some t) := by
    rw [lsFold_append]
    simp [lsFold, h]
  have h2 : lsFold (false, none) (pre.filter (fun a => a = "-a") ++ [t]) =
      ((lsFold (false, none) (pre.filter (fun a => a = "-a"))).1, some t) := by
    rw [lsFold_append]
    simp [lsFold, h]
  simp only [cmd_ls, h1, h2, lsFold_fst, any_filter_keep]

/-- Witness for C10: `ls x y` and `ls y` give the same result at the sample
state. -/
theorem cmd_ls_last_target_witness :
    ("y" : String) ≠ "-a" ∧
    cmd_ls stW (["x"] ++ ["y"]) =
      cmd_ls stW (List.filter (fun a => a = "-a") ["x"] ++ ["y"]) :=
  ⟨by decide, cmd_ls_last_target stW ["x"] "y" (by decide)⟩

end CodeMate
